import Mathlib

/-!
# Verification of the glitter flake BxDF (`src/materials/glitter.cpp`)

Shallow embedding of the flake BSDF.  Modelling conventions:

* `float`/`double` arithmetic is modelled exactly over `ℚ` (no rounding, no
  `inf`/`NaN`: the source's `x != x` NaN tests are kept literally and are
  decidably false over `ℚ`).  `PI` is the source's literal `3.14159265`.
* Randomness is passed explicitly: every pseudo-random draw the C++ makes
  (`RandomVector`, `RandomFloat`, the HSL tint sample) becomes an input of the
  embedded function.  `RandomVector` returns unit vectors by construction
  (`(sinθcosφ, sinθsinφ, cosθ)`), so the oracle vectors stand for the already
  normalised draws; theorems that need unit length take it as a hypothesis.
* `sqrt` (used only through `Normalize`) is not rational, so `Normalize` takes
  a square-root function `s : ℚ → ℚ` as a parameter; theorems that depend on
  the value of a normalisation constrain `s` pointwise by the defining
  property of the square root at exactly the lengths that occur.
* `Spectrum`/`RGBSpectrum` operations are componentwise, so one colour channel
  is tracked as a `ℚ`; the Fresnel evaluator, the continuous microfacet
  delegate (`D`, `G`, `Sample_wh`, `Pdf`) and the tint sources are external
  collaborators and are modelled as function-valued parameters, exactly at the
  interface the spec gives for them.
* The `while` loops (`BinarySearch`, `GenerateBRDFi`) are embedded with
  explicit fuel / a finite draw stream; `none` models a run that never
  returns.  `Sample_f`'s out-parameters `*wi`, `*pdf` are modelled as
  `Option` fields that are `none` when the source leaves them unwritten.
-/

namespace Glitter

/-- The `Vector3f` type: a 3-vector in the local shading frame (z = surface normal). -/
structure V3 where
  x : ℚ
  y : ℚ
  z : ℚ
  deriving DecidableEq

instance : Add V3 := ⟨fun a b => ⟨a.x + b.x, a.y + b.y, a.z + b.z⟩⟩

instance : Neg V3 := ⟨fun a => ⟨-a.x, -a.y, -a.z⟩⟩

instance : SMul ℚ V3 := ⟨fun q a => ⟨q * a.x, q * a.y, q * a.z⟩⟩

theorem V3.add_def (a b : V3) : a + b = ⟨a.x + b.x, a.y + b.y, a.z + b.z⟩ := rfl

theorem V3.neg_def (a : V3) : -a = ⟨-a.x, -a.y, -a.z⟩ := rfl

theorem V3.smul_def (q : ℚ) (a : V3) : q • a = ⟨q * a.x, q * a.y, q * a.z⟩ := rfl

/-- The `Dot` product. -/
def dot (a b : V3) : ℚ := a.x * b.x + a.y * b.y + a.z * b.z

/-- The `LengthSquared` value. -/
def quadrance (a : V3) : ℚ := a.x * a.x + a.y * a.y + a.z * a.z

/-- pbrt `AbsCosTheta(w) = |w.z|`. -/
def AbsCosTheta (w : V3) : ℚ := |w.z|

/-- pbrt `Reflect(wo, n) = -wo + 2 * Dot(wo, n) * n`. -/
def Reflect (wo n : V3) : V3 := -wo + (2 * dot wo n) • n

/-- pbrt `SameHemisphere(w, wp) = w.z * wp.z > 0`. -/
def SameHemisphere (w wp : V3) : Prop := w.z * wp.z > 0

instance (w wp : V3) : Decidable (SameHemisphere w wp) := by
  unfold SameHemisphere; infer_instance

/-- pbrt `Normalize(v) = v / v.Length()`; the square root inside `Length` is the
parameter `s` (see the module comment). -/
def Normalize (s : ℚ → ℚ) (v : V3) : V3 :=
  ⟨v.x / s (quadrance v), v.y / s (quadrance v), v.z / s (quadrance v)⟩

/-- The source's `#define PI 3.14159265` (the source's literal, not the real π). -/
def PI : ℚ := 3.14159265

/-- The running cumulative sum the `CreateReflectionCache` loop pushes
(`c += w; ctable.push_back(c);`), starting from accumulator `c`. -/
def cumsumFrom (c : ℚ) : List ℚ → List ℚ
  | [] => []
  | w :: ws => (c + w) :: cumsumFrom (c + w) ws

/-- The full cumulative table: `ctable.push_back(0)` followed by the loop. -/
def cumsum (ws : List ℚ) : List ℚ := 0 :: cumsumFrom 0 ws

/-- One cache entry's reflected direction:
`r = Reflect(wo, m); if (!SameHemisphere(wo, r)) r *= -1;`. -/
def reflDir (wo m : V3) : V3 :=
  let r := Reflect wo m
  if ¬ SameHemisphere wo r then (-1 : ℚ) • r else r

/-- One cache entry's weight: `w = abs(Dot(m, r))`. -/
def flakeWeight (wo m : V3) : ℚ := |dot m (reflDir wo m)|

/-- The four tables `CreateReflectionCache` fills by `push_back`. -/
structure ReflectionCache where
  normals : List V3
  rcache : List V3
  weights : List ℚ
  ctable : List ℚ
  deriving DecidableEq

/-- Source `CreateReflectionCache(wo, normals, rcache, weights, n, ctable)`.
The `n` random draws `m = Normalize(RandomVector())` of the loop are the
oracle list `ms` (`RandomVector` yields unit vectors, so the extra
`Normalize` is the identity on them); everything else is the loop body:
`r = Reflect(wo, m); if (!SameHemisphere(wo, r)) r *= -1;
w = abs(Dot(m, r)); c += w;` with each table pushed in order. -/
def CreateReflectionCache (wo : V3) (ms : List V3) : ReflectionCache :=
  { normals := ms
    rcache := ms.map (reflDir wo)
    weights := ms.map (flakeWeight wo)
    ctable := cumsum (ms.map (flakeWeight wo)) }

/-- The accumulation `if (Dot(wi, reflectioncache[i]) >= cos(gamma)) D += weights[i];`
over the zipped (reflection, weight) table; `cg` stands for `cos(gamma)`. -/
def coneSum (wi : V3) (cg : ℚ) : List (V3 × ℚ) → ℚ
  | [] => 0
  | rw :: rest => (if cg ≤ dot wi rw.1 then rw.2 else 0) + coneSum wi cg rest

/-- Source `CalculateDistribution(wi, weights, reflectioncache, n, gamma)`:
returns `DK = (D / 10^8, D)` where `D` sums the weights of the cache entries
within the `gamma` cone of `wi` (`N = pow(10,8)`). -/
def CalculateDistribution (wi : V3) (weights : List ℚ) (reflectioncache : List V3)
    (cg : ℚ) : ℚ × ℚ :=
  let D := coneSum wi cg (reflectioncache.zip weights)
  (D / 10 ^ 8, D)

/-- The `while (start <= end)` loop of `BinarySearch`, with explicit fuel;
`none` models a run of the loop that never returns.  Out-of-range table reads
(C++ undefined behaviour) are modelled by `getD`'s default `0`; the claims
only concern in-range states, which never perform such reads. -/
def bsGo (cache : List V3) (ctable : List ℚ) (value : ℚ) :
    ℕ → ℕ → ℕ → Option V3
  | 0, _, _ => none
  | fuel + 1, start, stop =>
    if start ≤ stop then
      let middle := start + (stop - start) / 2
      if ctable.getD start 0 < value ∧ value ≤ ctable.getD (start + 1) 0 then
        some (cache.getD start ⟨0, 0, 0⟩)
      else if value ≤ ctable.getD middle 0 then
        bsGo cache ctable value fuel start middle
      else
        bsGo cache ctable value fuel middle stop
    else some ⟨0, 0, 0⟩

/-- Source `BinarySearch(cache, ctable, value, n)`.  Any terminating run of the C++
loop returns within `n + 2` iterations (the `start`–`stop` gap strictly
shrinks while it is ≥ 2 and a gap ≤ 1 state either returns at once or loops
forever), so fuel `n + 2` is exact: `none` coincides with divergence. -/
def BinarySearch (cache : List V3) (ctable : List ℚ) (value : ℚ) (n : ℕ) :
    Option V3 :=
  bsGo cache ctable value (n + 2) 0 n

/-- Source `GenerateBRDFi(r, gamma)`: the rejection loop draws `i = Normalize(RandomVector())`
until `Dot(i, r) >= cos(gamma)`; the draw stream is the oracle list `draws`
and `none` models the loop exhausting it (the C++ loop never returning). -/
def GenerateBRDFi (draws : List V3) (r : V3) (cg : ℚ) : Option V3 :=
  draws.find? (fun i => decide (cg ≤ dot i r))

/-- The immutable `flakeBxDF` parameters, together with its external
collaborators (Fresnel, continuous distribution delegate, tint sources),
modelled at their interfaces; `cosGamma` stands for `cos(gamma)` —
everywhere the source uses `gamma` it is through `cos(gamma)`.  One colour
channel of each spectrum is tracked. -/
structure FlakeParams where
  R : ℚ
  flakenumber : ℤ
  cosGamma : ℚ
  area_A : ℚ
  fresnelEval : ℚ → ℚ
  distD : V3 → ℚ
  distG : V3 → V3 → ℚ
  distPdf : V3 → V3 → ℚ
  sampleWh : V3 → ℚ × ℚ → V3
  avgColor : ℚ

/-- Body of `f`'s discrete branch (`flakenumber < bmin && flag`), recomputing
the call-local `wh`, cache and `DK` (all pure): Fresnel at `Dot(wi, wh)`
times the per-call HSL tint, `conearea = 2π(1 − cos γ)`,
`distri = DK[0] * 4 / (|area_A| * conearea)`, returning
`R * F * distri / (4 cosθI cosθO * 200)`.  `wh` is normalised twice, as in
the source (lines 131 and 147). -/
def discreteBRDF (p : FlakeParams) (s : ℚ → ℚ) (ms : List V3) (tint : ℚ)
    (wo wi : V3) : ℚ :=
  let cosThetaO := AbsCosTheta wo
  let cosThetaI := AbsCosTheta wi
  let cache := CreateReflectionCache wo ms
  let DK := CalculateDistribution wi cache.weights cache.rcache p.cosGamma
  let wh := Normalize s (Normalize s (wi + wo))
  let F := p.fresnelEval (dot wi wh) * tint
  let conearea := 2 * PI * (1 - p.cosGamma)
  let distri := DK.1 * (4 / (|p.area_A| * conearea))
  p.R * F * distri / (4 * cosThetaI * cosThetaO * 200)

/-- Body of `f`'s smooth branch (`flakenumber >= bmax || !flag`):
`R * D(wh) * G(wo, wi) * F / (4 cosθI cosθO)` with Fresnel at `Dot(wi, wh)`
times the average tint colour. -/
def smoothBRDF (p : FlakeParams) (s : ℚ → ℚ) (wo wi : V3) : ℚ :=
  let cosThetaO := AbsCosTheta wo
  let cosThetaI := AbsCosTheta wi
  let wh := Normalize s (wi + wo)
  let F := p.fresnelEval (dot wi wh) * p.avgColor
  p.R * p.distD wh * p.distG wo wi * F / (4 * cosThetaI * cosThetaO)

/-- Source `flakeBxDF::f(wo, wi)`.  `ms` are the cache draws, `tint` the HSL colour
draw.  Guards in source order: zero cosines; zero half-vector; `!flakenumber`;
the validity test `DK[0] != DK[0] || !DK[0]` (the NaN disjunct is kept
literally; over `ℚ` it is false); then the branch on
`(flakenumber < bmin) && flag` / `(flakenumber >= bmax) || !flag` with
`bmin = bmax = 1000` and `flag = (DK[0] == DK[0])`, else `Spectrum(0.)`.
The branch bodies recompute the call-local `wh`, cache and `DK`; all of it
is pure, so this factoring is value-identical to the source. -/
def f (p : FlakeParams) (s : ℚ → ℚ) (ms : List V3) (tint : ℚ) (wo wi : V3) : ℚ :=
  let cosThetaO := AbsCosTheta wo
  let cosThetaI := AbsCosTheta wi
  if cosThetaI = 0 ∨ cosThetaO = 0 then 0 else
  let wh := wi + wo
  if wh.x = 0 ∧ wh.y = 0 ∧ wh.z = 0 then 0 else
  if p.flakenumber = 0 then 0 else
  let cache := CreateReflectionCache wo ms
  let DK := CalculateDistribution wi cache.weights cache.rcache p.cosGamma
  if DK.1 ≠ DK.1 ∨ DK.1 = 0 then 0 else
  if p.flakenumber < 1000 ∧ DK.1 = DK.1 then discreteBRDF p s ms tint wo wi
  else if 1000 ≤ p.flakenumber ∨ ¬ DK.1 = DK.1 then smoothBRDF p s wo wi
  else 0

/-- Source `flakeBxDF::Pdf(wo, wi)`.  `ms` are this call's fresh cache draws.
Guards: different hemispheres; `flakenumber <= 0`; the literal NaN test
`DK[1] != DK[1]`; then the branch on `(flakenumber < bmin) && flag` /
`flakenumber >= bmax || !flag` with
`flag = (DK[1] && DK[1] == DK[1]) && flakenumber`. -/
def Pdf (p : FlakeParams) (s : ℚ → ℚ) (ms : List V3) (wo wi : V3) : ℚ :=
  if ¬ SameHemisphere wo wi then 0 else
  if p.flakenumber ≤ 0 then 0 else
  let cache := CreateReflectionCache wo ms
  let DK := CalculateDistribution wi cache.weights cache.rcache p.cosGamma
  if DK.2 ≠ DK.2 then 0 else
  if p.flakenumber < 1000 ∧ ((DK.2 ≠ 0 ∧ DK.2 = DK.2) ∧ p.flakenumber ≠ 0) then
    DK.2 / (PI * (1 - p.cosGamma) * cache.ctable.getD p.flakenumber.toNat 0)
  else if 1000 ≤ p.flakenumber ∨ ¬ ((DK.2 ≠ 0 ∧ DK.2 = DK.2) ∧ p.flakenumber ≠ 0) then
    let wh := Normalize s (wo + wi)
    p.distPdf wo wh / (4 * dot wo wh)
  else 0

/-- The result of `Sample_f`: the returned spectrum channel and the two
out-parameters, `none` when the source returns without writing them. -/
structure SampleResult where
  value : ℚ
  wi : Option V3
  pdf : Option ℚ
  deriving DecidableEq

/-- All the pseudo-random draws a single `Sample_f` call consumes:
its own cache draws `ms`, the `RandomFloat(0, ctable[flakenumber])` value
`rv`, the `GenerateBRDFi` draw stream, and the fresh cache draws and tint of
the nested `f` and `Pdf` calls. -/
structure SampleOracle where
  ms : List V3
  rv : ℚ
  gdraws : List V3
  msF : List V3
  tint : ℚ
  msP : List V3

/-- Body of `Sample_f`'s discrete branch (`flakenumber < bmin`): weighted
selection of a cached reflected direction by `BinarySearch` at the random
cumulative target, cone rejection sampling of `*wi`, the hemisphere rejection
test, then `*pdf = Pdf(wo, *wi)` and `return f(wo, *wi)` (each of those two
nested calls drawing its own fresh cache).  `none` propagates a loop that
never returns. -/
def sampleDiscrete (p : FlakeParams) (s : ℚ → ℚ) (o : SampleOracle) (wo : V3) :
    Option SampleResult :=
  let cache := CreateReflectionCache wo o.ms
  match BinarySearch cache.rcache cache.ctable o.rv p.flakenumber.toNat with
  | none => none
  | some r =>
    match GenerateBRDFi o.gdraws r p.cosGamma with
    | none => none
    | some wi =>
      if ¬ SameHemisphere wo wi then some ⟨0, some wi, none⟩
      else some ⟨f p s o.msF o.tint wo wi, some wi, some (Pdf p s o.msP wo wi)⟩

/-- Body of `Sample_f`'s continuous branch (`flakenumber >= bmax`):
`wh = distribution->Sample_wh(wo, u)`, `*wi = Reflect(wo, wh)`, hemisphere
rejection, `*pdf = distribution->Pdf(wo, wh) / (4 Dot(wo, wh))`,
`return f(wo, *wi)`. -/
def sampleSmooth (p : FlakeParams) (s : ℚ → ℚ) (o : SampleOracle) (wo : V3)
    (u : ℚ × ℚ) : Option SampleResult :=
  let wh := p.sampleWh wo u
  let wi := Reflect wo wh
  if ¬ SameHemisphere wo wi then some ⟨0, some wi, none⟩
  else some ⟨f p s o.msF o.tint wo wi, some wi, some (p.distPdf wo wh / (4 * dot wo wh))⟩

/-- Source `flakeBxDF::Sample_f(wo, wi, u, pdf, sampledType)`.  Guards in source
order (`wo.z == 0`, `flakenumber <= 0`), then the `bmin = bmax = 1000`
branch; the trailing `return Spectrum(0.)` is kept.  The cache the source
builds before branching is only used by the discrete branch and is rebuilt
there (pure, hence value-identical). -/
def Sample_f (p : FlakeParams) (s : ℚ → ℚ) (o : SampleOracle) (wo : V3)
    (u : ℚ × ℚ) : Option SampleResult :=
  if wo.z = 0 then some ⟨0, none, none⟩ else
  if p.flakenumber ≤ 0 then some ⟨0, none, none⟩ else
  if p.flakenumber < 1000 then sampleDiscrete p s o wo
  else if 1000 ≤ p.flakenumber then sampleSmooth p s o wo u
  else some ⟨0, none, none⟩

/-- Which of `f`'s paths a call takes. -/
inductive Regime where
  | degenerate
  | discrete
  | smooth
  deriving DecidableEq

/-- The dispatch structure of `f`, guard for guard: `degenerate` for the four
zero-returning guards and the dead trailing `return`, otherwise the branch
selected by `(flakenumber < 1000) && flag` / `(flakenumber >= 1000) || !flag`
with `flag = (DK[0] == DK[0])`. -/
def fRegime (p : FlakeParams) (ms : List V3) (wo wi : V3) : Regime :=
  if AbsCosTheta wi = 0 ∨ AbsCosTheta wo = 0 then .degenerate else
  if (wi + wo).x = 0 ∧ (wi + wo).y = 0 ∧ (wi + wo).z = 0 then .degenerate else
  if p.flakenumber = 0 then .degenerate else
  let cache := CreateReflectionCache wo ms
  let DK := CalculateDistribution wi cache.weights cache.rcache p.cosGamma
  if DK.1 ≠ DK.1 ∨ DK.1 = 0 then .degenerate else
  if p.flakenumber < 1000 ∧ DK.1 = DK.1 then .discrete
  else if 1000 ≤ p.flakenumber ∨ ¬ DK.1 = DK.1 then .smooth
  else .degenerate

/-- The dispatch structure of `Sample_f`, guard for guard. -/
def sampleRegime (p : FlakeParams) (wo : V3) : Regime :=
  if wo.z = 0 then .degenerate else
  if p.flakenumber ≤ 0 then .degenerate else
  if p.flakenumber < 1000 then .discrete
  else if 1000 ≤ p.flakenumber then .smooth
  else .degenerate

/-- The `DK` pair `f` (and `Pdf`, for its own draws) computes: the
distribution estimate of the incoming direction against the reflection cache
built from `wo` and the draws `ms`. -/
def fDK (p : FlakeParams) (ms : List V3) (wo wi : V3) : ℚ × ℚ :=
  CalculateDistribution wi (CreateReflectionCache wo ms).weights
    (CreateReflectionCache wo ms).rcache p.cosGamma

/-- Modelled from the spec: the closed-form continuous microfacet reflectance
`reflectance × D(half-vector) × G(wo,wi) × Fresnel(dot(wi, half-vector)) ×
(average tint colour) / (4 · cosθi · cosθo)` with the half-vector
`Normalize(wi + wo)` (spec §4.5, continuous path; §8 last bullet). -/
def specMicrofacet (p : FlakeParams) (s : ℚ → ℚ) (wo wi : V3) : ℚ :=
  let wh := Normalize s (wi + wo)
  p.R * p.distD wh * p.distG wo wi * p.fresnelEval (dot wi wh) * p.avgColor /
    (4 * AbsCosTheta wi * AbsCosTheta wo)

/-! Concrete instances used by witnesses and counterexamples. -/

/-- The unit z direction. -/
def mUp : V3 := ⟨0, 0, 1⟩

/-- A concrete square-root stand-in correct at the two lengths the witness
runs encounter (`quadrance (wo + wi) = 4` and unit length `1`). -/
def sW : ℚ → ℚ := fun q => if q = 4 then 2 else if q = 1 then 1 else 0

/-- Concrete parameters for witness runs: one flake, `cos γ = 0` (γ = π/2),
all external collaborators constant `1`. -/
def pW : FlakeParams :=
  { R := 1, flakenumber := 1, cosGamma := 0, area_A := 1
    fresnelEval := fun _ => 1, distD := fun _ => 1, distG := fun _ _ => 1
    distPdf := fun _ _ => 1, sampleWh := fun _ _ => mUp, avgColor := 1 }

/-- Concrete oracle for witness runs: every draw is the unit z vector and the
cumulative target is `1 = ctable[1]`. -/
def oW : SampleOracle :=
  { ms := [mUp], rv := 1, gdraws := [mUp], msF := [mUp], tint := 1, msP := [mUp] }

/-- The result of the discrete witness run of `Sample_f`. -/
def resW : SampleResult := (Sample_f pW sW oW mUp (0, 0)).getD ⟨0, none, none⟩

/-- Parameters for the C1 counterexample: one flake, `cos γ = 1/2` (γ = 60°),
and a continuous-distribution delegate whose half-vector density is `0` —
allowed by its interface, which promises only a density. -/
def pCex : FlakeParams :=
  { R := 1, flakenumber := 1, cosGamma := 1 / 2, area_A := 1
    fresnelEval := fun _ => 1, distD := fun _ => 1, distG := fun _ _ => 1
    distPdf := fun _ _ => 0, sampleWh := fun _ _ => mUp, avgColor := 1 }

/-- Oracle for the C1 counterexample: the `Pdf` call's fresh cache draw
`⟨3/5, 0, 4/5⟩` yields the reflected direction `⟨24/25, 0, 7/25⟩`, outside
the 60° cone of `wi = ⟨0,0,1⟩`, so that call's density estimate is zero
while the `f` call's draw (the unit z vector) is inside its cone. -/
def oCex : SampleOracle :=
  { ms := [mUp], rv := 1, gdraws := [mUp], msF := [mUp], tint := 1
    msP := [⟨3 / 5, 0, 4 / 5⟩] }

/-- The result of the counterexample run of `Sample_f`. -/
def resCex : SampleResult := (Sample_f pCex sW oCex mUp (0, 0)).getD ⟨0, none, none⟩

/-- Parameters for the continuous-regime witness runs (`n = 1000`). -/
def pW1000 : FlakeParams :=
  { R := 1, flakenumber := 1000, cosGamma := 0, area_A := 1
    fresnelEval := fun _ => 1, distD := fun _ => 1, distG := fun _ _ => 1
    distPdf := fun _ _ => 1, sampleWh := fun _ _ => mUp, avgColor := 1 }

/-- Oracle for the continuous-regime witness run: the nested `f` and `Pdf`
calls draw empty caches (their values are not at issue there). -/
def oW1000 : SampleOracle :=
  { ms := [], rv := 1, gdraws := [], msF := [], tint := 1, msP := [] }

/-- Parameters for the boundary witness run (`n = 999`). -/
def pW999 : FlakeParams := { pW with flakenumber := 999 }

/-- The result of the discrete witness run `Sample_f pW sW oW mUp (0,0)`:
`f = 1 / (400 · 10^8 · PI)`, `wi = (0,0,1)`, `pdf = 1 / PI`. -/
def c1res : SampleResult :=
  ⟨1 / 125663706000, some mUp, some (20000000 / 62831853)⟩

/-- The result of the counterexample run `Sample_f pCex sW oCex mUp (0,0)`:
non-zero scattering `1 / (200 · 10^8 · PI)` with reported density `0`. -/
def c1cexres : SampleResult := ⟨1 / 62831853000, some mUp, some 0⟩

/-- The result of the continuous witness run
`Sample_f pW1000 sW oW1000 mUp (0,0)`. -/
def c4res : SampleResult := ⟨0, some mUp, some (1 / 4)⟩

theorem f_eq_dispatch (p : FlakeParams) (s : ℚ → ℚ) (ms : List V3) (tint : ℚ)
    (wo wi : V3) :
    f p s ms tint wo wi =
      match fRegime p ms wo wi with
      | .degenerate => 0
      | .discrete => discreteBRDF p s ms tint wo wi
      | .smooth => smoothBRDF p s wo wi := by
  unfold f fRegime
  dsimp only
  split_ifs <;> rfl

theorem sampleF_eq_dispatch (p : FlakeParams) (s : ℚ → ℚ) (o : SampleOracle)
    (wo : V3) (u : ℚ × ℚ) :
    Sample_f p s o wo u =
      match sampleRegime p wo with
      | .degenerate => some ⟨0, none, none⟩
      | .discrete => sampleDiscrete p s o wo
      | .smooth => sampleSmooth p s o wo u := by
  unfold Sample_f sampleRegime
  split_ifs <;> rfl

/-! ## Cumulative-table lemmas -/

theorem cumsumFrom_length (ws : List ℚ) : ∀ c : ℚ, (cumsumFrom c ws).length = ws.length := by
  induction ws with
  | nil => intro c; rfl
  | cons w ws ih => intro c; simpa [cumsumFrom] using ih (c + w)

theorem cumsum_length (ws : List ℚ) : (cumsum ws).length = ws.length + 1 := by
  simp [cumsum, cumsumFrom_length]

theorem cumsumFrom_getD (ws : List ℚ) :
    ∀ (c : ℚ) (i : ℕ), i < ws.length →
      (cumsumFrom c ws).getD i 0 = c + (ws.take (i + 1)).sum := by
  induction ws with
  | nil => intro c i h; simp at h
  | cons w ws ih =>
    intro c i h
    match i with
    | 0 => simp [cumsumFrom]
    | i + 1 =>
      have hi : i < ws.length := by simpa using h
      simp only [cumsumFrom, List.getD_cons_succ, List.take_succ_cons, List.sum_cons]
      rw [ih (c + w) i hi]; ring

theorem cumsum_getD (ws : List ℚ) (i : ℕ) (h : i ≤ ws.length) :
    (cumsum ws).getD i 0 = (ws.take i).sum := by
  match i with
  | 0 => simp [cumsum]
  | i + 1 =>
    have hi : i < ws.length := by omega
    simp only [cumsum, List.getD_cons_succ]
    rw [cumsumFrom_getD ws 0 i hi, zero_add]

theorem cumsum_getD_zero (ws : List ℚ) : (cumsum ws).getD 0 0 = 0 := by
  simp [cumsum]

theorem cumsum_getD_last (ws : List ℚ) : (cumsum ws).getD ws.length 0 = ws.sum := by
  rw [cumsum_getD ws ws.length le_rfl, List.take_length]

theorem cumsum_getD_step (ws : List ℚ) (i : ℕ) (h : i < ws.length) :
    (cumsum ws).getD (i + 1) 0 = (cumsum ws).getD i 0 + ws.getD i 0 := by
  rw [cumsum_getD ws (i + 1) (by omega), cumsum_getD ws i (le_of_lt h),
    List.sum_take_succ ws i h, List.getD_eq_getElem ws 0 h]

theorem cumsum_getD_nonneg (ws : List ℚ) (hw : ∀ w ∈ ws, 0 ≤ w) (i : ℕ) :
    0 ≤ (cumsum ws).getD i 0 := by
  by_cases h : i ≤ ws.length
  · rw [cumsum_getD ws i h]
    exact List.sum_nonneg fun w hwm => hw w (List.mem_of_mem_take hwm)
  · rw [List.getD_eq_default]
    rw [cumsum_length]; omega

theorem cumsum_getD_mono (ws : List ℚ) (hw : ∀ w ∈ ws, 0 ≤ w) :
    ∀ i j, i ≤ j → j ≤ ws.length →
      (cumsum ws).getD i 0 ≤ (cumsum ws).getD j 0 := by
  intro i j hij hj
  induction j with
  | zero =>
    have hi0 : i = 0 := by omega
    rw [hi0]
  | succ j ihj =>
    rcases Nat.lt_or_ge i (j + 1) with hlt | hge
    · have hjlen : j < ws.length := by omega
      have step := cumsum_getD_step ws j hjlen
      have hwj : 0 ≤ ws.getD j 0 := by
        rw [List.getD_eq_getElem ws 0 hjlen]
        exact hw _ (List.getElem_mem hjlen)
      calc (cumsum ws).getD i 0 ≤ (cumsum ws).getD j 0 := ihj (by omega) (by omega)
        _ ≤ (cumsum ws).getD (j + 1) 0 := by rw [step]; linarith
    · have : i = j + 1 := by omega
      subst this; rfl

/-! ## Weight and cone-sum lemmas -/

theorem flakeWeight_nonneg (wo m : V3) : 0 ≤ flakeWeight wo m := abs_nonneg _

theorem cache_weights_nonneg (wo : V3) (ms : List V3) :
    ∀ w ∈ (CreateReflectionCache wo ms).weights, 0 ≤ w := by
  intro w hw
  rcases List.mem_map.mp hw with ⟨m, _, rfl⟩
  exact flakeWeight_nonneg wo m

theorem coneSum_nonneg (wi : V3) (cg : ℚ) :
    ∀ l : List (V3 × ℚ), (∀ q ∈ l, 0 ≤ q.2) → 0 ≤ coneSum wi cg l := by
  intro l
  induction l with
  | nil => intro _; simp [coneSum]
  | cons rw rest ih =>
    intro h
    have h1 : 0 ≤ rw.2 := h rw (List.mem_cons_self _ _)
    have h2 := ih fun q hq => h q (List.mem_cons_of_mem _ hq)
    simp only [coneSum]
    split_ifs <;> linarith

theorem coneSum_le_sum (wi : V3) (cg : ℚ) :
    ∀ l : List (V3 × ℚ), (∀ q ∈ l, 0 ≤ q.2) →
      coneSum wi cg l ≤ (l.map Prod.snd).sum := by
  intro l
  induction l with
  | nil => intro _; simp [coneSum]
  | cons rw rest ih =>
    intro h
    have h1 : 0 ≤ rw.2 := h rw (List.mem_cons_self _ _)
    have h2 := ih fun q hq => h q (List.mem_cons_of_mem _ hq)
    simp only [coneSum, List.map_cons, List.sum_cons]
    split_ifs <;> linarith

theorem fDK_snd_nonneg (p : FlakeParams) (ms : List V3) (wo wi : V3) :
    0 ≤ (fDK p ms wo wi).2 := by
  unfold fDK CalculateDistribution
  apply coneSum_nonneg
  intro q hq
  rcases List.of_mem_zip hq with ⟨_, h2⟩
  exact cache_weights_nonneg wo ms _ h2

theorem fDK_snd_le_sum (p : FlakeParams) (ms : List V3) (wo wi : V3) :
    (fDK p ms wo wi).2 ≤ (CreateReflectionCache wo ms).weights.sum := by
  unfold fDK CalculateDistribution
  have hlen : (CreateReflectionCache wo ms).weights.length ≤
      (CreateReflectionCache wo ms).rcache.length := by
    simp [CreateReflectionCache]
  calc coneSum wi p.cosGamma
        ((CreateReflectionCache wo ms).rcache.zip (CreateReflectionCache wo ms).weights) ≤
      (((CreateReflectionCache wo ms).rcache.zip
        (CreateReflectionCache wo ms).weights).map Prod.snd).sum := by
        apply coneSum_le_sum
        intro q hq
        rcases List.of_mem_zip hq with ⟨_, h2⟩
        exact cache_weights_nonneg wo ms _ h2
    _ = (CreateReflectionCache wo ms).weights.sum := by
        rw [List.map_snd_zip _ _ hlen]

theorem cache_ctable_eq_cumsum (wo : V3) (ms : List V3) :
    (CreateReflectionCache wo ms).ctable = cumsum (CreateReflectionCache wo ms).weights := rfl

theorem cache_weights_length (wo : V3) (ms : List V3) :
    (CreateReflectionCache wo ms).weights.length = ms.length := by
  simp [CreateReflectionCache]

/-! ## Geometry lemmas: unit vectors, reflection, dot products -/

theorem quadrance_reflDir (wo m : V3) (hm : quadrance m = 1) :
    quadrance (reflDir wo m) = quadrance wo := by
  unfold reflDir
  dsimp only
  split_ifs with h
  · simp only [quadrance, Reflect, dot, V3.add_def, V3.neg_def, V3.smul_def] at hm ⊢
    linear_combination (4 * (wo.x * m.x + wo.y * m.y + wo.z * m.z) ^ 2) * hm
  · simp only [quadrance, Reflect, dot, V3.add_def, V3.neg_def, V3.smul_def] at hm ⊢
    linear_combination (4 * (wo.x * m.x + wo.y * m.y + wo.z * m.z) ^ 2) * hm

theorem abs_dot_le_one (u v : V3) (hu : quadrance u = 1) (hv : quadrance v = 1) :
    |dot u v| ≤ 1 := by
  rw [abs_le]
  unfold quadrance at hu hv
  unfold dot
  constructor <;>
    nlinarith [sq_nonneg (u.x * v.y - u.y * v.x), sq_nonneg (u.x * v.z - u.z * v.x),
      sq_nonneg (u.y * v.z - u.z * v.y), sq_nonneg (u.x + v.x), sq_nonneg (u.y + v.y),
      sq_nonneg (u.z + v.z), sq_nonneg (u.x - v.x), sq_nonneg (u.y - v.y),
      sq_nonneg (u.z - v.z)]

theorem flakeWeight_le_one (wo m : V3) (hwo : quadrance wo = 1) (hm : quadrance m = 1) :
    flakeWeight wo m ≤ 1 := by
  unfold flakeWeight
  have hr : quadrance (reflDir wo m) = 1 := by rw [quadrance_reflDir wo m hm, hwo]
  exact abs_dot_le_one m (reflDir wo m) hm hr

theorem one_add_dot_pos (wo wi : V3) (hwo : quadrance wo = 1) (hwi : quadrance wi = 1)
    (hsh : SameHemisphere wo wi) : 0 < 1 + dot wo wi := by
  unfold SameHemisphere at hsh
  unfold quadrance at hwo hwi
  unfold dot
  nlinarith [sq_nonneg (wo.x + wi.x), sq_nonneg (wo.y + wi.y), sq_nonneg (wo.z - wi.z)]

/-! ## Binary-search lemmas -/

/-- Loop-invariant correctness of the `while` loop: from a state with
`ctable[start] < value ≤ ctable[stop]` (`start ≤ stop`) and enough fuel, the
loop returns `cache[i]` for an index `i` whose cumulative interval contains
`value`. -/
theorem bsGo_some (cache : List V3) (ct : List ℚ) (v : ℚ) :
    ∀ fuel start stop : ℕ,
      ct.getD start 0 < v → v ≤ ct.getD stop 0 → start ≤ stop →
      stop - start < fuel →
      ∃ i, bsGo cache ct v fuel start stop = some (cache.getD i ⟨0, 0, 0⟩) ∧
        ct.getD i 0 < v ∧ v ≤ ct.getD (i + 1) 0 := by
  intro fuel
  induction fuel with
  | zero => intro start stop _ _ _ h; omega
  | succ fuel ih =>
    intro start stop hlo hhi hle hfuel
    rw [bsGo, if_pos hle]
    by_cases hret : ct.getD start 0 < v ∧ v ≤ ct.getD (start + 1) 0
    · rw [if_pos hret]
      exact ⟨start, rfl, hret.1, hret.2⟩
    · rw [if_neg hret]
      by_cases hm : v ≤ ct.getD (start + (stop - start) / 2) 0
      · rw [if_pos hm]
        have hne : start < start + (stop - start) / 2 := by
          rcases Nat.lt_or_ge start (start + (stop - start) / 2) with h | h
          · exact h
          · exfalso
            have : start + (stop - start) / 2 = start := by omega
            rw [this] at hm
            linarith
        exact ih start (start + (stop - start) / 2) hlo hm (by omega) (by omega)
      · rw [if_neg hm]
        push_neg at hm
        have hnv : ¬ v ≤ ct.getD (start + 1) 0 := fun h => hret ⟨hlo, h⟩
        have hgap : 2 ≤ stop - start := by
          rcases Nat.lt_or_ge (stop - start) 2 with h | h
          · exfalso
            have h01 : stop = start ∨ stop = start + 1 := by omega
            rcases h01 with h0 | h1
            · rw [h0] at hhi; linarith
            · rw [h1] at hhi; exact hnv hhi
          · exact h
        exact ih (start + (stop - start) / 2) stop hm hhi (by omega) (by omega)

/-- The loop never returns for a non-positive target over a non-negative
table starting at `0`: the first return condition `ctable[start] < value`
is unsatisfiable at `start = 0` and every step keeps `start = 0`. -/
theorem bsGo_nonpos_none (cache : List V3) (ct : List ℚ) (v : ℚ)
    (hv : v ≤ 0) (h0 : ct.getD 0 0 = 0) (hnn : ∀ i, 0 ≤ ct.getD i 0) :
    ∀ fuel stop : ℕ, bsGo cache ct v fuel 0 stop = none := by
  intro fuel
  induction fuel with
  | zero => intro stop; rfl
  | succ fuel ih =>
    intro stop
    rw [bsGo, if_pos (Nat.zero_le _)]
    have hc1 : ¬ (ct.getD 0 0 < v ∧ v ≤ ct.getD (0 + 1) 0) := by
      rintro ⟨h1, -⟩
      rw [h0] at h1
      linarith
    rw [if_neg hc1, if_pos (le_trans hv (hnn _))]
    exact ih _

theorem dot_normalize_add (s : ℚ → ℚ) (wo wi : V3) :
    dot wo (Normalize s (wo + wi)) = dot wo (wo + wi) / s (quadrance (wo + wi)) := by
  simp only [Normalize, dot, V3.add_def]
  ring

theorem quadrance_add_self (wo wi : V3) (hwo : quadrance wo = 1) (hwi : quadrance wi = 1) :
    quadrance (wo + wi) = 2 * (1 + dot wo wi) := by
  simp only [quadrance, dot, V3.add_def] at *
  ring_nf
  linarith

theorem dot_self_add (wo wi : V3) : dot wo (wo + wi) = quadrance wo + dot wo wi := by
  simp only [dot, quadrance, V3.add_def]
  ring

/-- Identity `wo + Reflect(wo, wh) = 2 Dot(wo, wh) wh`. -/
theorem add_reflect_eq (wo wh : V3) :
    wo + Reflect wo wh = (2 * dot wo wh) • wh := by
  simp only [Reflect, V3.add_def, V3.neg_def, V3.smul_def, V3.mk.injEq]
  refine ⟨?_, ?_, ?_⟩ <;> ring

/-- Normalising a positive multiple of a unit vector recovers the vector,
given a square root correct at the squared length. -/
theorem Normalize_eq_of_smul (s : ℚ → ℚ) (v wh : V3) (d : ℚ)
    (hv : v = (2 * d) • wh) (hwh : quadrance wh = 1) (hd : 0 < d)
    (hs0 : 0 ≤ s (quadrance v)) (hs2 : s (quadrance v) ^ 2 = quadrance v) :
    Normalize s v = wh := by
  have hq : quadrance v = (2 * d) ^ 2 := by
    rw [hv]
    simp only [quadrance, V3.smul_def] at hwh ⊢
    linear_combination (4 * d ^ 2) * hwh
  have hL : s (quadrance v) = 2 * d := by
    have h1 : s (quadrance v) ^ 2 = (2 * d) ^ 2 := by rw [hs2, hq]
    nlinarith [hs0, hd]
  have hd0 : (2 * d : ℚ) ≠ 0 := by positivity
  unfold Normalize
  rw [hL, hv]
  simp only [V3.smul_def]
  cases wh with
  | mk x y z =>
    simp only [V3.mk.injEq]
    refine ⟨?_, ?_, ?_⟩ <;> field_simp

/-- The shared core of C9: a non-zero raw density estimate is strictly
positive and bounded by the total cache weight `ctable[flakenumber]`. -/
theorem fDK_def (p : FlakeParams) (ms : List V3) (wo wi : V3) :
    CalculateDistribution wi (CreateReflectionCache wo ms).weights
      (CreateReflectionCache wo ms).rcache p.cosGamma = fDK p ms wo wi := rfl

theorem fDK_pos_and_le (p : FlakeParams) (ms : List V3) (wo wi : V3)
    (hlen : ms.length = p.flakenumber.toNat) (hDK : (fDK p ms wo wi).2 ≠ 0) :
    0 < (fDK p ms wo wi).2 ∧
    (fDK p ms wo wi).2 ≤
      (CreateReflectionCache wo ms).ctable.getD p.flakenumber.toNat 0 := by
  have h1 : 0 < (fDK p ms wo wi).2 :=
    lt_of_le_of_ne (fDK_snd_nonneg p ms wo wi) (Ne.symm hDK)
  have hlast : (CreateReflectionCache wo ms).ctable.getD p.flakenumber.toNat 0 =
      (CreateReflectionCache wo ms).weights.sum := by
    rw [← hlen, cache_ctable_eq_cumsum, ← cache_weights_length wo ms, cumsum_getD_last]
  exact ⟨h1, by rw [hlast]; exact fDK_snd_le_sum p ms wo wi⟩

/-- Evaluation of `Pdf` in the continuous regime (`n ≥ 1000`) evaluates to the delegate's
half-vector density with the reflection Jacobian, whatever its own cache
draws were. -/
theorem Pdf_smooth_eval (p : FlakeParams) (s : ℚ → ℚ) (ms : List V3) (wo wi : V3)
    (hsh : SameHemisphere wo wi) (hge : 1000 ≤ p.flakenumber) :
    Pdf p s ms wo wi =
      p.distPdf wo (Normalize s (wo + wi)) / (4 * dot wo (Normalize s (wo + wi))) := by
  unfold Pdf
  dsimp only
  rw [fDK_def]
  rw [if_neg (not_not_intro hsh), if_neg (by omega : ¬ p.flakenumber ≤ 0),
    if_neg (show ¬ ((fDK p ms wo wi).2 ≠ (fDK p ms wo wi).2) from fun h => h rfl),
    if_neg (fun hc => absurd hc.1 (by omega)), if_pos (Or.inl hge)]

/-- Positivity of the square root at a positive argument, from its defining
properties there. -/
theorem sqrt_pos_of_sq (s : ℚ → ℚ) (q : ℚ) (hq : 0 < q)
    (hs0 : 0 ≤ s q) (hs2 : s q ^ 2 = q) : 0 < s q := by
  rcases lt_or_eq_of_le hs0 with h | h
  · exact h
  · exfalso
    rw [← h] at hs2
    simp at hs2
    rw [← hs2] at hq
    exact lt_irrefl 0 hq

/-- Whenever `Pdf`'s guards pass with a positive flake count, unit vectors,
`cos γ < 1`, a matching cache size, a square root correct at
`quadrance (wo + wi)` and a strictly positive delegate density at the
half-vector, the returned density is strictly positive — in the discrete
branch because `0 < DK[1] ≤ ctable[n]`, in the continuous/fallback branch by
the delegate's positivity and `Dot(wo, wh) > 0`. -/
theorem Pdf_pos (p : FlakeParams) (s : ℚ → ℚ) (ms : List V3) (wo wi : V3)
    (hsh : SameHemisphere wo wi) (hn : 0 < p.flakenumber) (hcg : p.cosGamma < 1)
    (hlen : ms.length = p.flakenumber.toNat)
    (hwo : quadrance wo = 1) (hwi : quadrance wi = 1)
    (hdel : 0 < p.distPdf wo (Normalize s (wo + wi)))
    (hs0 : 0 ≤ s (quadrance (wo + wi)))
    (hs2 : s (quadrance (wo + wi)) ^ 2 = quadrance (wo + wi)) :
    0 < Pdf p s ms wo wi := by
  have hPI : (0 : ℚ) < PI := by norm_num [PI]
  unfold Pdf
  dsimp only
  rw [fDK_def]
  rw [if_neg (not_not_intro hsh), if_neg (by omega : ¬ p.flakenumber ≤ 0),
    if_neg (show ¬ ((fDK p ms wo wi).2 ≠ (fDK p ms wo wi).2) from fun h => h rfl)]
  by_cases hc : p.flakenumber < 1000 ∧
      (((fDK p ms wo wi).2 ≠ 0 ∧ (fDK p ms wo wi).2 = (fDK p ms wo wi).2) ∧
        p.flakenumber ≠ 0)
  · rw [if_pos hc]
    obtain ⟨hpos, hle⟩ := fDK_pos_and_le p ms wo wi hlen hc.2.1.1
    exact div_pos hpos
      (mul_pos (mul_pos hPI (by linarith)) (lt_of_lt_of_le hpos hle))
  · rw [if_neg hc]
    have hc2 : 1000 ≤ p.flakenumber ∨
        ¬ (((fDK p ms wo wi).2 ≠ 0 ∧ (fDK p ms wo wi).2 = (fDK p ms wo wi).2) ∧
          p.flakenumber ≠ 0) := by
      rcases not_and_or.mp hc with h | h
      · exact Or.inl (by omega)
      · exact Or.inr h
    rw [if_pos hc2]
    have hdotpos : 0 < dot wo (wo + wi) := by
      rw [dot_self_add, hwo]
      exact one_add_dot_pos wo wi hwo hwi hsh
    have hqpos : 0 < quadrance (wo + wi) := by
      rw [quadrance_add_self wo wi hwo hwi]
      have := one_add_dot_pos wo wi hwo hwi hsh
      linarith
    have hL : 0 < s (quadrance (wo + wi)) :=
      sqrt_pos_of_sq s _ hqpos hs0 hs2
    have hdotn : 0 < dot wo (Normalize s (wo + wi)) := by
      rw [dot_normalize_add]
      exact div_pos hdotpos hL
    exact div_pos hdel (by linarith)

/-- A singleton-cache `BinarySearch` with an in-range positive target returns
the single cached direction at the first iteration. -/
theorem binarySearch_singleton (r : V3) (w v : ℚ) (h1 : 0 < v) (h2 : v ≤ w) :
    BinarySearch [r] (cumsum [w]) v 1 = some r := by
  unfold BinarySearch
  show bsGo [r] (cumsum [w]) v (2 + 1) 0 1 = some r
  rw [bsGo, if_pos (by omega : (0 : ℕ) ≤ 1),
    if_pos ⟨by simpa [cumsum] using h1, by simpa [cumsum, cumsumFrom] using h2⟩]
  rfl

/-- The rejection sampler returns the first draw when it is inside the cone. -/
theorem GenerateBRDFi_singleton (v r : V3) (cg : ℚ) (h : cg ≤ dot v r) :
    GenerateBRDFi [v] r cg = some v := by
  unfold GenerateBRDFi
  exact List.find?_cons_of_pos _ (by simpa using h)

theorem zip_singleton {α β : Type} (a : α) (b : β) : [a].zip [b] = [(a, b)] := rfl

/-! Evaluation of the concrete witness and counterexample runs. -/

theorem reflDir_up : reflDir mUp mUp = mUp := by
  unfold reflDir Reflect
  norm_num [SameHemisphere, dot, mUp, V3.add_def, V3.neg_def, V3.smul_def]

theorem flakeWeight_up : flakeWeight mUp mUp = 1 := by
  unfold flakeWeight
  rw [reflDir_up]
  norm_num [dot, mUp]

theorem cache_up : CreateReflectionCache mUp [mUp] =
    ⟨[mUp], [mUp], [1], cumsum [1]⟩ := by
  unfold CreateReflectionCache
  simp [reflDir_up, flakeWeight_up]

theorem fDK_up_eval (p : FlakeParams) (hcg : p.cosGamma ≤ 1) :
    fDK p [mUp] mUp mUp = (1 / 10 ^ 8, 1) := by
  unfold fDK CalculateDistribution
  rw [cache_up]
  dsimp only
  rw [zip_singleton]
  unfold coneSum coneSum
  rw [if_pos (by simpa [dot, mUp] using hcg)]
  norm_num

theorem f_up_eval : f pW sW [mUp] 1 mUp mUp = 1 / 125663706000 := by
  unfold f
  dsimp only
  rw [fDK_def pW [mUp] mUp mUp, fDK_up_eval pW (by norm_num [pW])]
  rw [if_neg (by norm_num [AbsCosTheta, mUp]), if_neg (by norm_num [mUp, V3.add_def]),
    if_neg (by decide), if_neg (by norm_num), if_pos ⟨by decide, rfl⟩]
  unfold discreteBRDF
  dsimp only
  rw [fDK_def pW [mUp] mUp mUp, fDK_up_eval pW (by norm_num [pW])]
  norm_num [pW, PI, AbsCosTheta, mUp]

theorem Pdf_up_eval : Pdf pW sW [mUp] mUp mUp = 20000000 / 62831853 := by
  unfold Pdf
  dsimp only
  rw [fDK_def pW [mUp] mUp mUp, fDK_up_eval pW (by norm_num [pW])]
  rw [if_neg (not_not_intro (by norm_num [SameHemisphere, mUp] : SameHemisphere mUp mUp)),
    if_neg (by decide), if_neg (by norm_num),
    if_pos ⟨by decide, ⟨by norm_num, rfl⟩, by decide⟩]
  rw [cache_up]
  norm_num [PI, pW, cumsum, cumsumFrom]

theorem sample_f_up_eval : Sample_f pW sW oW mUp (0, 0) = some c1res := by
  unfold Sample_f
  rw [if_neg (by norm_num [mUp]), if_neg (by decide), if_pos (by decide)]
  unfold sampleDiscrete
  rw [show oW.ms = [mUp] from rfl, cache_up]
  dsimp only
  rw [show oW.rv = (1 : ℚ) from rfl, show pW.flakenumber.toNat = 1 from rfl,
    binarySearch_singleton mUp 1 1 one_pos le_rfl]
  dsimp only
  rw [show oW.gdraws = [mUp] from rfl,
    GenerateBRDFi_singleton mUp mUp pW.cosGamma (by norm_num [dot, mUp, pW])]
  dsimp only
  rw [if_neg (not_not_intro (by norm_num [SameHemisphere, mUp] : SameHemisphere mUp mUp))]
  rw [show oW.msF = [mUp] from rfl, show oW.tint = (1 : ℚ) from rfl,
    show oW.msP = [mUp] from rfl, f_up_eval, Pdf_up_eval]
  rfl

theorem f_cex_eval : f pCex sW [mUp] 1 mUp mUp = 1 / 62831853000 := by
  unfold f
  dsimp only
  rw [fDK_def pCex [mUp] mUp mUp, fDK_up_eval pCex (by norm_num [pCex])]
  rw [if_neg (by norm_num [AbsCosTheta, mUp]), if_neg (by norm_num [mUp, V3.add_def]),
    if_neg (by decide), if_neg (by norm_num), if_pos ⟨by decide, rfl⟩]
  unfold discreteBRDF
  dsimp only
  rw [fDK_def pCex [mUp] mUp mUp, fDK_up_eval pCex (by norm_num [pCex])]
  norm_num [pCex, PI, AbsCosTheta, mUp]

theorem Pdf_cex_eval : Pdf pCex sW [V3.mk (3 / 5) 0 (4 / 5)] mUp mUp = 0 := by
  have hDK : fDK pCex [V3.mk (3 / 5) 0 (4 / 5)] mUp mUp = (0, 0) := by
    unfold fDK CalculateDistribution CreateReflectionCache
    dsimp only
    rw [List.map_cons, List.map_nil, List.map_cons, List.map_nil, zip_singleton]
    unfold coneSum coneSum
    rw [if_neg (by norm_num [reflDir, Reflect, SameHemisphere, dot, mUp, pCex,
      V3.add_def, V3.neg_def, V3.smul_def])]
    norm_num
  unfold Pdf
  dsimp only
  rw [fDK_def pCex [V3.mk (3 / 5) 0 (4 / 5)] mUp mUp, hDK]
  rw [if_neg (not_not_intro (by norm_num [SameHemisphere, mUp] : SameHemisphere mUp mUp)),
    if_neg (by decide), if_neg (by norm_num),
    if_neg (fun hc => hc.2.1.1 (by norm_num)),
    if_pos (Or.inr (fun hc => hc.1.1 (by norm_num)))]
  norm_num [pCex]

theorem sample_f_cex_eval : Sample_f pCex sW oCex mUp (0, 0) = some c1cexres := by
  unfold Sample_f
  rw [if_neg (by norm_num [mUp]), if_neg (by decide), if_pos (by decide)]
  unfold sampleDiscrete
  rw [show oCex.ms = [mUp] from rfl, cache_up]
  dsimp only
  rw [show oCex.rv = (1 : ℚ) from rfl, show pCex.flakenumber.toNat = 1 from rfl,
    binarySearch_singleton mUp 1 1 one_pos le_rfl]
  dsimp only
  rw [show oCex.gdraws = [mUp] from rfl,
    GenerateBRDFi_singleton mUp mUp pCex.cosGamma (by norm_num [dot, mUp, pCex])]
  dsimp only
  rw [if_neg (not_not_intro (by norm_num [SameHemisphere, mUp] : SameHemisphere mUp mUp))]
  rw [show oCex.msF = [mUp] from rfl, show oCex.tint = (1 : ℚ) from rfl,
    show oCex.msP = [V3.mk (3 / 5) 0 (4 / 5)] from rfl, f_cex_eval, Pdf_cex_eval]
  rfl

theorem reflect_up : Reflect mUp mUp = mUp := by
  unfold Reflect
  norm_num [dot, mUp, V3.add_def, V3.neg_def, V3.smul_def]

theorem f_empty_eval : f pW1000 sW [] 1 mUp mUp = 0 := by
  unfold f
  dsimp only
  rw [if_neg (by norm_num [AbsCosTheta, mUp]), if_neg (by norm_num [mUp, V3.add_def]),
    if_neg (by decide),
    if_pos (Or.inr (by norm_num [CalculateDistribution, CreateReflectionCache, coneSum]))]

theorem sample_f_smooth_run_eval :
    Sample_f pW1000 sW oW1000 mUp (0, 0) = some c4res := by
  unfold Sample_f
  rw [if_neg (by norm_num [mUp]), if_neg (by decide), if_neg (by decide),
    if_pos (by decide)]
  unfold sampleSmooth
  dsimp only
  rw [show pW1000.sampleWh mUp (0, 0) = mUp from rfl, reflect_up]
  rw [if_neg (not_not_intro (by norm_num [SameHemisphere, mUp] : SameHemisphere mUp mUp))]
  rw [show oW1000.msF = [] from rfl, show oW1000.tint = (1 : ℚ) from rfl, f_empty_eval]
  have hpdf : pW1000.distPdf mUp mUp / (4 * dot mUp mUp) = 1 / 4 := by
    norm_num [pW1000, dot, mUp]
  rw [hpdf]
  rfl

/-! ## Claim theorems -/

/-- C7: for every outgoing direction `wo` and flake count `n ≥ 1` (`n` draws
`ms`), the cumulative table from `CreateReflectionCache` has length `n + 1`,
starts at `0`, steps by the entry weights, is non-decreasing, and ends at the
sum of all entry weights. -/
theorem ctable_invariants (wo : V3) (ms : List V3) (hn : 1 ≤ ms.length) :
    (CreateReflectionCache wo ms).ctable.length = ms.length + 1 ∧
    (CreateReflectionCache wo ms).ctable.getD 0 0 = 0 ∧
    (∀ i < ms.length, (CreateReflectionCache wo ms).ctable.getD (i + 1) 0 =
      (CreateReflectionCache wo ms).ctable.getD i 0 +
        (CreateReflectionCache wo ms).weights.getD i 0) ∧
    (∀ i j, i ≤ j → j ≤ ms.length →
      (CreateReflectionCache wo ms).ctable.getD i 0 ≤
        (CreateReflectionCache wo ms).ctable.getD j 0) ∧
    (CreateReflectionCache wo ms).ctable.getD ms.length 0 =
      (CreateReflectionCache wo ms).weights.sum := by
  refine ⟨?_, ?_, ?_, ?_, ?_⟩
  · rw [cache_ctable_eq_cumsum, cumsum_length, cache_weights_length]
  · rw [cache_ctable_eq_cumsum, cumsum_getD_zero]
  · intro i hi
    rw [cache_ctable_eq_cumsum]
    exact cumsum_getD_step _ i (by rw [cache_weights_length]; exact hi)
  · intro i j hij hj
    rw [cache_ctable_eq_cumsum]
    exact cumsum_getD_mono _ (cache_weights_nonneg wo ms) i j hij
      (by rw [cache_weights_length]; exact hj)
  · rw [cache_ctable_eq_cumsum, ← cache_weights_length wo ms, cumsum_getD_last]

/-- Witness for C7 at `wo = (0,0,1)` with a single draw `(0,0,1)`. -/
theorem ctable_invariants_witness :
    1 ≤ [mUp].length ∧
    ((CreateReflectionCache mUp [mUp]).ctable.length = [mUp].length + 1 ∧
      (CreateReflectionCache mUp [mUp]).ctable.getD 0 0 = 0 ∧
      (∀ i < [mUp].length, (CreateReflectionCache mUp [mUp]).ctable.getD (i + 1) 0 =
        (CreateReflectionCache mUp [mUp]).ctable.getD i 0 +
          (CreateReflectionCache mUp [mUp]).weights.getD i 0) ∧
      (∀ i j, i ≤ j → j ≤ [mUp].length →
        (CreateReflectionCache mUp [mUp]).ctable.getD i 0 ≤
          (CreateReflectionCache mUp [mUp]).ctable.getD j 0) ∧
      (CreateReflectionCache mUp [mUp]).ctable.getD [mUp].length 0 =
        (CreateReflectionCache mUp [mUp]).weights.sum) :=
  ⟨by decide, ctable_invariants mUp [mUp] (by decide)⟩

/-- C10: for unit `wo` and unit draws, every cache weight lies in `[0, 1]`
(it is `|Dot(m, r)|` of two unit vectors), so every cumulative-table entry
lies in `[0, n]` and the total cache weight is at most `n`. -/
theorem cache_weights_bounded (wo : V3) (ms : List V3)
    (hwo : quadrance wo = 1) (hms : ∀ m ∈ ms, quadrance m = 1) :
    (∀ w ∈ (CreateReflectionCache wo ms).weights, 0 ≤ w ∧ w ≤ 1) ∧
    (∀ i ≤ ms.length, 0 ≤ (CreateReflectionCache wo ms).ctable.getD i 0 ∧
      (CreateReflectionCache wo ms).ctable.getD i 0 ≤ (ms.length : ℚ)) ∧
    (CreateReflectionCache wo ms).ctable.getD ms.length 0 ≤ (ms.length : ℚ) := by
  have hw1 : ∀ w ∈ (CreateReflectionCache wo ms).weights, w ≤ 1 := by
    intro w hw
    rcases List.mem_map.mp hw with ⟨m, hm, rfl⟩
    exact flakeWeight_le_one wo m hwo (hms m hm)
  have hentry : ∀ i ≤ ms.length, 0 ≤ (CreateReflectionCache wo ms).ctable.getD i 0 ∧
      (CreateReflectionCache wo ms).ctable.getD i 0 ≤ (ms.length : ℚ) := by
    intro i hi
    constructor
    · rw [cache_ctable_eq_cumsum]
      exact cumsum_getD_nonneg _ (cache_weights_nonneg wo ms) i
    · rw [cache_ctable_eq_cumsum,
        cumsum_getD _ i (by rw [cache_weights_length]; exact hi)]
      have h1 : ((CreateReflectionCache wo ms).weights.take i).sum ≤
          ((CreateReflectionCache wo ms).weights.take i).length • (1 : ℚ) :=
        List.sum_le_card_nsmul _ 1 fun x hx => hw1 x (List.mem_of_mem_take hx)
      rw [nsmul_eq_mul, mul_one] at h1
      have h2 : (((CreateReflectionCache wo ms).weights.take i).length : ℚ) ≤
          (ms.length : ℚ) := by
        have : ((CreateReflectionCache wo ms).weights.take i).length ≤ ms.length := by
          rw [List.length_take, cache_weights_length]; omega
        exact_mod_cast this
      linarith
  exact ⟨fun w hw => ⟨cache_weights_nonneg wo ms w hw, hw1 w hw⟩, hentry,
    (hentry ms.length le_rfl).2⟩

/-- Witness for C10 at `wo = (0,0,1)` with draws `(0,0,1)` and `(3/5,0,4/5)`. -/
theorem cache_weights_bounded_witness :
    quadrance mUp = 1 ∧ (∀ m ∈ [mUp, V3.mk (3 / 5) 0 (4 / 5)], quadrance m = 1) ∧
    ((∀ w ∈ (CreateReflectionCache mUp [mUp, V3.mk (3 / 5) 0 (4 / 5)]).weights,
        0 ≤ w ∧ w ≤ 1) ∧
      (∀ i ≤ [mUp, V3.mk (3 / 5) 0 (4 / 5)].length,
        0 ≤ (CreateReflectionCache mUp [mUp, V3.mk (3 / 5) 0 (4 / 5)]).ctable.getD i 0 ∧
        (CreateReflectionCache mUp [mUp, V3.mk (3 / 5) 0 (4 / 5)]).ctable.getD i 0 ≤
          ([mUp, V3.mk (3 / 5) 0 (4 / 5)].length : ℚ)) ∧
      (CreateReflectionCache mUp [mUp, V3.mk (3 / 5) 0 (4 / 5)]).ctable.getD
          [mUp, V3.mk (3 / 5) 0 (4 / 5)].length 0 ≤
        ([mUp, V3.mk (3 / 5) 0 (4 / 5)].length : ℚ)) :=
  ⟨by norm_num [quadrance, mUp], by norm_num [quadrance, mUp],
    cache_weights_bounded mUp [mUp, V3.mk (3 / 5) 0 (4 / 5)]
      (by norm_num [quadrance, mUp]) (by norm_num [quadrance, mUp])⟩

/-- C9: in `Pdf`'s discrete branch (`0 < n < 1000`, raw density `DK[1]`
non-zero, `cos γ < 1`), the divisor `PI * (1 - cos γ) * ctable[n]` is
strictly positive because `0 < DK[1] ≤ ctable[n]`. -/
theorem pdf_discrete_divisor_pos (p : FlakeParams) (ms : List V3) (wo wi : V3)
    (hn0 : 0 < p.flakenumber) (hn1 : p.flakenumber < 1000)
    (hlen : ms.length = p.flakenumber.toNat)
    (hDK : (fDK p ms wo wi).2 ≠ 0) (hcg : p.cosGamma < 1) :
    0 < (fDK p ms wo wi).2 ∧
    (fDK p ms wo wi).2 ≤
      (CreateReflectionCache wo ms).ctable.getD p.flakenumber.toNat 0 ∧
    0 < PI * (1 - p.cosGamma) *
      (CreateReflectionCache wo ms).ctable.getD p.flakenumber.toNat 0 := by
  have h1 : 0 < (fDK p ms wo wi).2 :=
    lt_of_le_of_ne (fDK_snd_nonneg p ms wo wi) (Ne.symm hDK)
  have hlast : (CreateReflectionCache wo ms).ctable.getD p.flakenumber.toNat 0 =
      (CreateReflectionCache wo ms).weights.sum := by
    rw [← hlen, cache_ctable_eq_cumsum, ← cache_weights_length wo ms, cumsum_getD_last]
  have h2 : (fDK p ms wo wi).2 ≤
      (CreateReflectionCache wo ms).ctable.getD p.flakenumber.toNat 0 := by
    rw [hlast]; exact fDK_snd_le_sum p ms wo wi
  have hPI : (0 : ℚ) < PI := by norm_num [PI]
  exact ⟨h1, h2, mul_pos (mul_pos hPI (by linarith)) (lt_of_lt_of_le h1 h2)⟩

/-- Witness for C9 at the concrete one-flake cache. -/
theorem pdf_discrete_divisor_pos_witness :
    ((0 : ℤ) < pW.flakenumber ∧ pW.flakenumber < 1000 ∧
      [mUp].length = pW.flakenumber.toNat ∧
      (fDK pW [mUp] mUp mUp).2 ≠ 0 ∧ pW.cosGamma < 1) ∧
    (0 < (fDK pW [mUp] mUp mUp).2 ∧
      (fDK pW [mUp] mUp mUp).2 ≤
        (CreateReflectionCache mUp [mUp]).ctable.getD pW.flakenumber.toNat 0 ∧
      0 < PI * (1 - pW.cosGamma) *
        (CreateReflectionCache mUp [mUp]).ctable.getD pW.flakenumber.toNat 0) :=
  ⟨⟨by decide, by decide, by decide,
      by norm_num [fDK, CalculateDistribution, CreateReflectionCache, coneSum,
        reflDir, flakeWeight, Reflect, SameHemisphere, dot, mUp, pW,
        V3.add_def, V3.neg_def, V3.smul_def],
      by norm_num [pW]⟩,
    pdf_discrete_divisor_pos pW [mUp] mUp mUp (by decide) (by decide) (by decide)
      (by norm_num [fDK, CalculateDistribution, CreateReflectionCache, coneSum,
        reflDir, flakeWeight, Reflect, SameHemisphere, dot, mUp, pW,
        V3.add_def, V3.neg_def, V3.smul_def])
      (by norm_num [pW])⟩

/-- C3 (counterexample): the boundary target `0` lies in `[0, table[n]]` for
the one-entry table `[0, 1]`, yet no entry `i` satisfies
`table[i] < 0 ≤ table[i+1]` and `BinarySearch` never returns (the `while`
loop gets stuck shrinking `end` towards `(start, end) = (0, 0)`; `none` is
the loop failing to return within its proven-sufficient fuel). -/
theorem binarySearch_zero_target_diverges :
    (0 : ℚ) ≤ (cumsum [1]).getD 1 0 ∧
    BinarySearch [mUp] (cumsum [1]) 0 1 = none ∧
    bsGo [mUp] (cumsum [1]) 0 60 0 1 = none ∧
    ∀ i < 1, ¬ ((cumsum [(1 : ℚ)]).getD i 0 < 0 ∧
      (0 : ℚ) ≤ (cumsum [(1 : ℚ)]).getD (i + 1) 0) := by
  have hnn : ∀ i, 0 ≤ (cumsum [(1 : ℚ)]).getD i 0 :=
    cumsum_getD_nonneg [(1 : ℚ)] (by norm_num)
  refine ⟨?_, ?_, ?_, ?_⟩
  · exact hnn 1
  · exact bsGo_nonpos_none [mUp] (cumsum [1]) 0 le_rfl (cumsum_getD_zero _) hnn (1 + 2) 1
  · exact bsGo_nonpos_none [mUp] (cumsum [1]) 0 le_rfl (cumsum_getD_zero _) hnn 60 1
  · intro i hi
    interval_cases i
    rintro ⟨h1, -⟩
    exact absurd h1 (not_lt.mpr (hnn 0))

/-- C3 (amended): for a cumulative table of non-negative weights and a target
strictly inside `(0, table[n]]`, `BinarySearch` returns the reflected
direction cached at the unique entry `i` with `table[i] < target ≤ table[i+1]`;
the boundary `target = 0` has no such entry and the search never returns. -/
theorem binarySearch_in_range (cache : List V3) (ws : List ℚ)
    (hw : ∀ w ∈ ws, 0 ≤ w) (v : ℚ) (hv : 0 < v)
    (hle : v ≤ (cumsum ws).getD ws.length 0) :
    ∃ i, i < ws.length ∧
      BinarySearch cache (cumsum ws) v ws.length = some (cache.getD i ⟨0, 0, 0⟩) ∧
      (cumsum ws).getD i 0 < v ∧ v ≤ (cumsum ws).getD (i + 1) 0 ∧
      ∀ j, (cumsum ws).getD j 0 < v → v ≤ (cumsum ws).getD (j + 1) 0 → j = i := by
  have hlo : (cumsum ws).getD 0 0 < v := by rw [cumsum_getD_zero]; exact hv
  obtain ⟨i, hsome, hilo, hihi⟩ :=
    bsGo_some cache (cumsum ws) v (ws.length + 2) 0 ws.length hlo hle
      (Nat.zero_le _) (by omega)
  have hrange : ∀ k, (cumsum ws).getD k 0 < v → v ≤ (cumsum ws).getD (k + 1) 0 →
      k < ws.length := by
    intro k _ hk2
    by_contra hk
    push_neg at hk
    rw [List.getD_eq_default] at hk2
    · linarith
    · rw [cumsum_length]; omega
  have hi : i < ws.length := hrange i hilo hihi
  refine ⟨i, hi, hsome, hilo, hihi, ?_⟩
  intro j hj1 hj2
  have hj : j < ws.length := hrange j hj1 hj2
  by_contra hne
  rcases Nat.lt_or_ge j i with hlt | hge
  · have : (cumsum ws).getD (j + 1) 0 ≤ (cumsum ws).getD i 0 :=
      cumsum_getD_mono ws hw (j + 1) i (by omega) (by omega)
    linarith
  · have hlt : i < j := by omega
    have : (cumsum ws).getD (i + 1) 0 ≤ (cumsum ws).getD j 0 :=
      cumsum_getD_mono ws hw (i + 1) j (by omega) (by omega)
    linarith

/-- Witness for the amended C3 on the two-entry table `[0, 1/2, 3/2]` at
target `1`. -/
theorem binarySearch_in_range_witness :
    ((∀ w ∈ [(1 : ℚ)/2, 1], 0 ≤ w) ∧ (0 : ℚ) < 1 ∧
      (1 : ℚ) ≤ (cumsum [(1 : ℚ)/2, 1]).getD [(1 : ℚ)/2, 1].length 0) ∧
    (∃ i, i < [(1 : ℚ)/2, 1].length ∧
      BinarySearch [mUp, V3.mk (3/5) 0 (4/5)] (cumsum [(1 : ℚ)/2, 1]) 1
          [(1 : ℚ)/2, 1].length =
        some ([mUp, V3.mk (3/5) 0 (4/5)].getD i ⟨0, 0, 0⟩) ∧
      (cumsum [(1 : ℚ)/2, 1]).getD i 0 < 1 ∧
      (1 : ℚ) ≤ (cumsum [(1 : ℚ)/2, 1]).getD (i + 1) 0 ∧
      ∀ j, (cumsum [(1 : ℚ)/2, 1]).getD j 0 < 1 →
        (1 : ℚ) ≤ (cumsum [(1 : ℚ)/2, 1]).getD (j + 1) 0 → j = i) :=
  ⟨⟨by norm_num, by norm_num, by norm_num [cumsum, cumsumFrom]⟩,
    binarySearch_in_range [mUp, V3.mk (3/5) 0 (4/5)] [(1 : ℚ)/2, 1]
      (by norm_num) 1 (by norm_num) (by norm_num [cumsum, cumsumFrom])⟩

/-- C5: `f` returns exactly zero whenever either direction has zero
z-magnitude, or `wi + wo` is the zero vector, or the flake count is zero, or
the normalised density estimate is NaN (kept literally; false over `ℚ`) or
zero. -/
theorem f_degenerate_zero (p : FlakeParams) (s : ℚ → ℚ) (ms : List V3)
    (tint : ℚ) (wo wi : V3)
    (h : AbsCosTheta wi = 0 ∨ AbsCosTheta wo = 0 ∨
      ((wi + wo).x = 0 ∧ (wi + wo).y = 0 ∧ (wi + wo).z = 0) ∨
      p.flakenumber = 0 ∨
      (fDK p ms wo wi).1 ≠ (fDK p ms wo wi).1 ∨ (fDK p ms wo wi).1 = 0) :
    f p s ms tint wo wi = 0 := by
  unfold fDK at h
  unfold f
  dsimp only
  split_ifs <;> first | rfl | (exfalso; tauto)

/-- C2: with all four zero-guards passed, `f` takes the discrete path exactly
when `flakenumber < 1000` and the validity flag `DK[0] == DK[0]` holds, and
takes the continuous path whenever `flakenumber ≥ 1000` or the flag fails
(the flag, a NaN test, is kept literally; over exact arithmetic it always
holds once the guard `DK[0] != DK[0] || !DK[0]` has passed — as it also does
in the source, where a NaN `DK[0]` returns at that earlier guard). -/
theorem regime_selection (p : FlakeParams) (ms : List V3) (wo wi : V3)
    (h1 : AbsCosTheta wi ≠ 0) (h2 : AbsCosTheta wo ≠ 0)
    (h3 : ¬ ((wi + wo).x = 0 ∧ (wi + wo).y = 0 ∧ (wi + wo).z = 0))
    (h4 : p.flakenumber ≠ 0) (h5 : (fDK p ms wo wi).1 ≠ 0) :
    (fRegime p ms wo wi = Regime.discrete ↔
      p.flakenumber < 1000 ∧ (fDK p ms wo wi).1 = (fDK p ms wo wi).1) ∧
    ((1000 ≤ p.flakenumber ∨ ¬ (fDK p ms wo wi).1 = (fDK p ms wo wi).1) →
      fRegime p ms wo wi = Regime.smooth) := by
  have hg1 : ¬ (AbsCosTheta wi = 0 ∨ AbsCosTheta wo = 0) := by tauto
  have hg4 : ¬ ((fDK p ms wo wi).1 ≠ (fDK p ms wo wi).1 ∨ (fDK p ms wo wi).1 = 0) := by
    push_neg
    exact ⟨rfl, h5⟩
  unfold fDK at hg4 ⊢
  unfold fRegime
  dsimp only
  rw [if_neg hg1, if_neg h3, if_neg h4, if_neg hg4]
  by_cases hlt : p.flakenumber < 1000
  · rw [if_pos ⟨hlt, rfl⟩]
    refine ⟨⟨fun _ => ⟨hlt, rfl⟩, fun _ => rfl⟩, ?_⟩
    rintro (hge | hne)
    · omega
    · exact absurd rfl hne
  · have hge : 1000 ≤ p.flakenumber := by omega
    rw [if_neg (fun hc => hlt hc.1), if_pos (Or.inl hge)]
    exact ⟨⟨fun h => absurd h (by decide), fun hc => absurd hc.1 hlt⟩, fun _ => rfl⟩

/-- Witness for C2 at the one-flake parameters (discrete side realised). -/
theorem regime_selection_witness :
    (AbsCosTheta mUp ≠ 0 ∧
      ¬ ((mUp + mUp).x = 0 ∧ (mUp + mUp).y = 0 ∧ (mUp + mUp).z = 0) ∧
      pW.flakenumber ≠ 0 ∧ (fDK pW [mUp] mUp mUp).1 ≠ 0) ∧
    ((fRegime pW [mUp] mUp mUp = Regime.discrete ↔
      pW.flakenumber < 1000 ∧ (fDK pW [mUp] mUp mUp).1 = (fDK pW [mUp] mUp mUp).1) ∧
    ((1000 ≤ pW.flakenumber ∨
        ¬ (fDK pW [mUp] mUp mUp).1 = (fDK pW [mUp] mUp mUp).1) →
      fRegime pW [mUp] mUp mUp = Regime.smooth)) :=
  ⟨⟨by norm_num [AbsCosTheta, mUp], by norm_num [mUp, V3.add_def], by decide,
      by norm_num [fDK, CalculateDistribution, CreateReflectionCache, coneSum,
        reflDir, flakeWeight, Reflect, SameHemisphere, dot, mUp, pW,
        V3.add_def, V3.neg_def, V3.smul_def]⟩,
    regime_selection pW [mUp] mUp mUp (by norm_num [AbsCosTheta, mUp])
      (by norm_num [AbsCosTheta, mUp]) (by norm_num [mUp, V3.add_def]) (by decide)
      (by norm_num [fDK, CalculateDistribution, CreateReflectionCache, coneSum,
        reflDir, flakeWeight, Reflect, SameHemisphere, dot, mUp, pW,
        V3.add_def, V3.neg_def, V3.smul_def])⟩

/-- C6: at the regime boundary, flake count `999` selects the discrete path
and `1000` the continuous path, identically in `f` and in `Sample_f`. -/
theorem regime_boundary (p : FlakeParams) (ms : List V3) (wo wi : V3)
    (h1 : AbsCosTheta wi ≠ 0) (h2 : AbsCosTheta wo ≠ 0)
    (h3 : ¬ ((wi + wo).x = 0 ∧ (wi + wo).y = 0 ∧ (wi + wo).z = 0))
    (h5 : (fDK p ms wo wi).1 ≠ 0) (hz : wo.z ≠ 0) :
    (p.flakenumber = 999 →
      fRegime p ms wo wi = Regime.discrete ∧ sampleRegime p wo = Regime.discrete) ∧
    (p.flakenumber = 1000 →
      fRegime p ms wo wi = Regime.smooth ∧ sampleRegime p wo = Regime.smooth) := by
  have hg1 : ¬ (AbsCosTheta wi = 0 ∨ AbsCosTheta wo = 0) := by tauto
  have hg4 : ¬ ((fDK p ms wo wi).1 ≠ (fDK p ms wo wi).1 ∨ (fDK p ms wo wi).1 = 0) := by
    push_neg
    exact ⟨rfl, h5⟩
  unfold fDK at hg4
  constructor
  · intro h999
    constructor
    · unfold fRegime
      dsimp only
      rw [if_neg hg1, if_neg h3, if_neg (by omega : ¬ p.flakenumber = 0),
        if_neg hg4, if_pos ⟨by omega, rfl⟩]
    · unfold sampleRegime
      rw [if_neg hz, if_neg (by omega : ¬ p.flakenumber ≤ 0),
        if_pos (by omega : p.flakenumber < 1000)]
  · intro h1000
    constructor
    · unfold fRegime
      dsimp only
      rw [if_neg hg1, if_neg h3, if_neg (by omega : ¬ p.flakenumber = 0),
        if_neg hg4, if_neg (fun hc => by omega : ¬ (p.flakenumber < 1000 ∧
          (CalculateDistribution wi (CreateReflectionCache wo ms).weights
            (CreateReflectionCache wo ms).rcache p.cosGamma).1 =
          (CalculateDistribution wi (CreateReflectionCache wo ms).weights
            (CreateReflectionCache wo ms).rcache p.cosGamma).1)),
        if_pos (Or.inl (by omega : (1000 : ℤ) ≤ p.flakenumber))]
    · unfold sampleRegime
      rw [if_neg hz, if_neg (by omega : ¬ p.flakenumber ≤ 0),
        if_neg (by omega : ¬ p.flakenumber < 1000),
        if_pos (by omega : (1000 : ℤ) ≤ p.flakenumber)]

/-- Witness for C6: both boundary flake counts realised concretely. -/
theorem regime_boundary_witness :
    (AbsCosTheta mUp ≠ 0 ∧
      ¬ ((mUp + mUp).x = 0 ∧ (mUp + mUp).y = 0 ∧ (mUp + mUp).z = 0) ∧
      (fDK pW999 [mUp] mUp mUp).1 ≠ 0 ∧ (fDK pW1000 [mUp] mUp mUp).1 ≠ 0 ∧
      mUp.z ≠ 0 ∧ pW999.flakenumber = 999 ∧ pW1000.flakenumber = 1000) ∧
    (fRegime pW999 [mUp] mUp mUp = Regime.discrete ∧
      sampleRegime pW999 mUp = Regime.discrete) ∧
    (fRegime pW1000 [mUp] mUp mUp = Regime.smooth ∧
      sampleRegime pW1000 mUp = Regime.smooth) :=
  ⟨⟨by norm_num [AbsCosTheta, mUp], by norm_num [mUp, V3.add_def],
      by norm_num [fDK, CalculateDistribution, CreateReflectionCache, coneSum,
        reflDir, flakeWeight, Reflect, SameHemisphere, dot, mUp, pW999, pW,
        V3.add_def, V3.neg_def, V3.smul_def],
      by norm_num [fDK, CalculateDistribution, CreateReflectionCache, coneSum,
        reflDir, flakeWeight, Reflect, SameHemisphere, dot, mUp, pW1000,
        V3.add_def, V3.neg_def, V3.smul_def],
      by norm_num [mUp], by decide, by decide⟩,
    (regime_boundary pW999 [mUp] mUp mUp (by norm_num [AbsCosTheta, mUp])
      (by norm_num [AbsCosTheta, mUp]) (by norm_num [mUp, V3.add_def])
      (by norm_num [fDK, CalculateDistribution, CreateReflectionCache, coneSum,
        reflDir, flakeWeight, Reflect, SameHemisphere, dot, mUp, pW999, pW,
        V3.add_def, V3.neg_def, V3.smul_def])
      (by norm_num [mUp])).1 (by decide),
    (regime_boundary pW1000 [mUp] mUp mUp (by norm_num [AbsCosTheta, mUp])
      (by norm_num [AbsCosTheta, mUp]) (by norm_num [mUp, V3.add_def])
      (by norm_num [fDK, CalculateDistribution, CreateReflectionCache, coneSum,
        reflDir, flakeWeight, Reflect, SameHemisphere, dot, mUp, pW1000,
        V3.add_def, V3.neg_def, V3.smul_def])
      (by norm_num [mUp])).2 (by decide)⟩

/-- C8: for non-degenerate inputs in the continuous regime (`n ≥ 1000`, all
zero-guards passed, density estimate non-zero), `f` returns exactly the
closed-form microfacet value
`R · D(wh) · G(wo,wi) · Fresnel(dot(wi,wh)) · avgColor / (4 cosθI cosθO)`
with `wh = Normalize(wi + wo)`, for the given Fresnel/distribution
stand-ins. -/
theorem continuous_closed_form (p : FlakeParams) (s : ℚ → ℚ) (ms : List V3)
    (tint : ℚ) (wo wi : V3)
    (h1 : AbsCosTheta wi ≠ 0) (h2 : AbsCosTheta wo ≠ 0)
    (h3 : ¬ ((wi + wo).x = 0 ∧ (wi + wo).y = 0 ∧ (wi + wo).z = 0))
    (h4 : 1000 ≤ p.flakenumber) (h5 : (fDK p ms wo wi).1 ≠ 0) :
    f p s ms tint wo wi = specMicrofacet p s wo wi := by
  have hg1 : ¬ (AbsCosTheta wi = 0 ∨ AbsCosTheta wo = 0) := by tauto
  have hg4 : ¬ ((fDK p ms wo wi).1 ≠ (fDK p ms wo wi).1 ∨ (fDK p ms wo wi).1 = 0) := by
    push_neg
    exact ⟨rfl, h5⟩
  unfold fDK at hg4
  unfold f
  dsimp only
  rw [if_neg hg1, if_neg h3, if_neg (by omega : ¬ p.flakenumber = 0),
    if_neg hg4, if_neg (fun hc => absurd hc.1 (by omega)),
    if_pos (Or.inl h4)]
  unfold smoothBRDF specMicrofacet
  dsimp only
  ring

/-- Witness for C8 at the `n = 1000` parameters. -/
theorem continuous_closed_form_witness :
    (AbsCosTheta mUp ≠ 0 ∧
      ¬ ((mUp + mUp).x = 0 ∧ (mUp + mUp).y = 0 ∧ (mUp + mUp).z = 0) ∧
      (1000 : ℤ) ≤ pW1000.flakenumber ∧ (fDK pW1000 [mUp] mUp mUp).1 ≠ 0) ∧
    f pW1000 sW [mUp] 1 mUp mUp = specMicrofacet pW1000 sW mUp mUp :=
  ⟨⟨by norm_num [AbsCosTheta, mUp], by norm_num [mUp, V3.add_def], by decide,
      by norm_num [fDK, CalculateDistribution, CreateReflectionCache, coneSum,
        reflDir, flakeWeight, Reflect, SameHemisphere, dot, mUp, pW1000,
        V3.add_def, V3.neg_def, V3.smul_def]⟩,
    continuous_closed_form pW1000 sW [mUp] 1 mUp mUp
      (by norm_num [AbsCosTheta, mUp]) (by norm_num [AbsCosTheta, mUp])
      (by norm_num [mUp, V3.add_def]) (by decide)
      (by norm_num [fDK, CalculateDistribution, CreateReflectionCache, coneSum,
        reflDir, flakeWeight, Reflect, SameHemisphere, dot, mUp, pW1000,
        V3.add_def, V3.neg_def, V3.smul_def])⟩

/-- C1 (amended): for `wo.z ≠ 0` and flake count `n > 0` — and additionally
unit `wo`, cone angle with `cos γ < 1`, a `Pdf`-call cache of the flake
count's size, unit cone-sampling draws with a square root correct at the
lengths that occur, and the delegate's interface guarantees (strictly
positive half-vector densities; sampled half-vector with `Dot(wo, wh) > 0`) —
whenever `Sample_f` returns a non-zero scattering value, the written incoming
direction lies in `wo`'s hemisphere and the written probability density is
strictly positive. -/
theorem sample_f_output_guarantees (p : FlakeParams) (s : ℚ → ℚ) (o : SampleOracle)
    (wo : V3) (u : ℚ × ℚ) (res : SampleResult)
    (hz : wo.z ≠ 0) (hn : 0 < p.flakenumber)
    (hcg : p.cosGamma < 1) (hwo : quadrance wo = 1)
    (hlenP : o.msP.length = p.flakenumber.toNat)
    (hg : ∀ v ∈ o.gdraws, quadrance v = 1 ∧ 0 ≤ s (quadrance (wo + v)) ∧
      s (quadrance (wo + v)) ^ 2 = quadrance (wo + v) ∧
      0 < p.distPdf wo (Normalize s (wo + v)))
    (hwhd : 0 < dot wo (p.sampleWh wo u))
    (hdelS : 0 < p.distPdf wo (p.sampleWh wo u))
    (hres : Sample_f p s o wo u = some res) (hval : res.value ≠ 0) :
    (∃ w, res.wi = some w ∧ SameHemisphere wo w) ∧
    (∃ pd, res.pdf = some pd ∧ 0 < pd) := by
  unfold Sample_f at hres
  rw [if_neg hz, if_neg (by omega : ¬ p.flakenumber ≤ 0)] at hres
  by_cases hlt : p.flakenumber < 1000
  · rw [if_pos hlt] at hres
    unfold sampleDiscrete at hres
    dsimp only at hres
    cases hbs : BinarySearch (CreateReflectionCache wo o.ms).rcache
        (CreateReflectionCache wo o.ms).ctable o.rv p.flakenumber.toNat with
    | none => rw [hbs] at hres; simp at hres
    | some r =>
      rw [hbs] at hres
      dsimp only at hres
      cases hgen : GenerateBRDFi o.gdraws r p.cosGamma with
      | none => rw [hgen] at hres; simp at hres
      | some wi =>
        rw [hgen] at hres
        dsimp only at hres
        by_cases hsh : SameHemisphere wo wi
        · rw [if_neg (not_not_intro hsh)] at hres
          obtain ⟨hq, hs0, hs2, hdel⟩ := hg wi (List.mem_of_find?_eq_some hgen)
          have hres2 := Option.some.inj hres
          refine ⟨⟨wi, ?_, hsh⟩, ⟨Pdf p s o.msP wo wi, ?_, ?_⟩⟩
          · rw [← hres2]
          · rw [← hres2]
          · exact Pdf_pos p s o.msP wo wi hsh hn hcg hlenP hwo hq hdel hs0 hs2
        · rw [if_pos hsh] at hres
          rw [← Option.some.inj hres] at hval
          exact absurd rfl hval
  · rw [if_neg hlt, if_pos (by omega : (1000 : ℤ) ≤ p.flakenumber)] at hres
    unfold sampleSmooth at hres
    dsimp only at hres
    by_cases hsh : SameHemisphere wo (Reflect wo (p.sampleWh wo u))
    · rw [if_neg (not_not_intro hsh)] at hres
      have hres2 := Option.some.inj hres
      refine ⟨⟨Reflect wo (p.sampleWh wo u), ?_, hsh⟩,
        ⟨p.distPdf wo (p.sampleWh wo u) / (4 * dot wo (p.sampleWh wo u)), ?_, ?_⟩⟩
      · rw [← hres2]
      · rw [← hres2]
      · exact div_pos hdelS (by linarith)
    · rw [if_pos hsh] at hres
      rw [← Option.some.inj hres] at hval
      exact absurd rfl hval

/-- C1 (counterexample): a concrete discrete-regime run (`wo.z = 1 ≠ 0`,
flake count `1 > 0`) in which `Sample_f` returns the non-zero scattering
value `1/62831853000` while reporting probability density `0`, which is not
strictly positive: the nested `f` and `Pdf` calls draw independent fresh
caches; here the `Pdf` call's cache entry misses the cone, so `Pdf` falls
back to the continuous delegate, whose half-vector density — promised by its
interface only to be a density — is `0`. -/
theorem sample_f_zero_pdf_cex :
    mUp.z ≠ 0 ∧ (0 : ℤ) < pCex.flakenumber ∧
    Sample_f pCex sW oCex mUp (0, 0) = some c1cexres ∧
    c1cexres.value ≠ 0 ∧ c1cexres.pdf = some 0 ∧ ¬ (0 : ℚ) < 0 :=
  ⟨by norm_num [mUp], by decide, sample_f_cex_eval, by norm_num [c1cexres],
    rfl, by norm_num⟩

/-- Witness for the amended C1 on the one-flake discrete run. -/
theorem sample_f_output_guarantees_witness :
    (mUp.z ≠ 0 ∧ (0 : ℤ) < pW.flakenumber ∧ pW.cosGamma < 1 ∧
      quadrance mUp = 1 ∧ oW.msP.length = pW.flakenumber.toNat ∧
      (∀ v ∈ oW.gdraws, quadrance v = 1 ∧ 0 ≤ sW (quadrance (mUp + v)) ∧
        sW (quadrance (mUp + v)) ^ 2 = quadrance (mUp + v) ∧
        0 < pW.distPdf mUp (Normalize sW (mUp + v))) ∧
      0 < dot mUp (pW.sampleWh mUp (0, 0)) ∧
      0 < pW.distPdf mUp (pW.sampleWh mUp (0, 0)) ∧
      Sample_f pW sW oW mUp (0, 0) = some c1res ∧ c1res.value ≠ 0) ∧
    ((∃ w, c1res.wi = some w ∧ SameHemisphere mUp w) ∧
      (∃ pd, c1res.pdf = some pd ∧ 0 < pd)) :=
  ⟨⟨by norm_num [mUp], by decide, by norm_num [pW], by norm_num [quadrance, mUp],
      by decide,
      by norm_num [oW, quadrance, mUp, sW, V3.add_def, pW],
      by norm_num [pW, dot, mUp], by norm_num [pW], sample_f_up_eval,
      by norm_num [c1res]⟩,
    sample_f_output_guarantees pW sW oW mUp (0, 0) c1res (by norm_num [mUp])
      (by decide) (by norm_num [pW]) (by norm_num [quadrance, mUp]) (by decide)
      (by norm_num [oW, quadrance, mUp, sW, V3.add_def, pW])
      (by norm_num [pW, dot, mUp]) (by norm_num [pW]) sample_f_up_eval
      (by norm_num [c1res])⟩

/-- C4: in the discrete regime (`n < 1000`) `Sample_f` reports its density by
exact reuse of `Pdf` at the returned direction (the nested call drawing its
own fresh cache); in the continuous regime (`n ≥ 1000`) the reported density
`distribution->Pdf(wo, wh) / (4 Dot(wo, wh))` for the sampled half-vector
equals what `Pdf` computes from `Normalize(wo + wi)` at the returned
`wi = Reflect(wo, wh)`, given the delegate's interface (unit half-vector with
`Dot(wo, wh) > 0`) and a square root correct at `quadrance (wo + wi)`. -/
theorem sample_f_pdf_consistency :
    (∀ (p : FlakeParams) (s : ℚ → ℚ) (o : SampleOracle) (wo : V3) (u : ℚ × ℚ)
      (res : SampleResult), p.flakenumber < 1000 →
      Sample_f p s o wo u = some res →
      ∀ w pd, res.wi = some w → res.pdf = some pd → pd = Pdf p s o.msP wo w) ∧
    (∀ (p : FlakeParams) (s : ℚ → ℚ) (o : SampleOracle) (wo : V3) (u : ℚ × ℚ)
      (res : SampleResult), 1000 ≤ p.flakenumber →
      quadrance (p.sampleWh wo u) = 1 → 0 < dot wo (p.sampleWh wo u) →
      0 ≤ s (quadrance (wo + Reflect wo (p.sampleWh wo u))) →
      s (quadrance (wo + Reflect wo (p.sampleWh wo u))) ^ 2 =
        quadrance (wo + Reflect wo (p.sampleWh wo u)) →
      Sample_f p s o wo u = some res →
      ∀ pd, res.pdf = some pd →
        pd = p.distPdf wo (p.sampleWh wo u) / (4 * dot wo (p.sampleWh wo u)) ∧
        pd = Pdf p s o.msP wo (Reflect wo (p.sampleWh wo u))) := by
  constructor
  · intro p s o wo u res hlt hres w pd hw hpd
    unfold Sample_f at hres
    by_cases hz : wo.z = 0
    · rw [if_pos hz] at hres
      rw [← Option.some.inj hres] at hpd
      simp at hpd
    · rw [if_neg hz] at hres
      by_cases hn0 : p.flakenumber ≤ 0
      · rw [if_pos hn0] at hres
        rw [← Option.some.inj hres] at hpd
        simp at hpd
      · rw [if_neg hn0, if_pos hlt] at hres
        unfold sampleDiscrete at hres
        dsimp only at hres
        cases hbs : BinarySearch (CreateReflectionCache wo o.ms).rcache
            (CreateReflectionCache wo o.ms).ctable o.rv p.flakenumber.toNat with
        | none => rw [hbs] at hres; simp at hres
        | some r =>
          rw [hbs] at hres
          dsimp only at hres
          cases hgen : GenerateBRDFi o.gdraws r p.cosGamma with
          | none => rw [hgen] at hres; simp at hres
          | some wi =>
            rw [hgen] at hres
            dsimp only at hres
            by_cases hsh : SameHemisphere wo wi
            · rw [if_neg (not_not_intro hsh)] at hres
              rw [← Option.some.inj hres] at hw hpd
              dsimp only at hw hpd
              rw [← Option.some.inj hpd, ← Option.some.inj hw]
            · rw [if_pos hsh] at hres
              rw [← Option.some.inj hres] at hpd
              simp at hpd
  · intro p s o wo u res hge hq hdot hs0 hs2 hres pd hpd
    unfold Sample_f at hres
    by_cases hz : wo.z = 0
    · rw [if_pos hz] at hres
      rw [← Option.some.inj hres] at hpd
      simp at hpd
    · rw [if_neg hz, if_neg (by omega : ¬ p.flakenumber ≤ 0),
        if_neg (by omega : ¬ p.flakenumber < 1000), if_pos hge] at hres
      unfold sampleSmooth at hres
      dsimp only at hres
      by_cases hsh : SameHemisphere wo (Reflect wo (p.sampleWh wo u))
      · rw [if_neg (not_not_intro hsh)] at hres
        rw [← Option.some.inj hres] at hpd
        dsimp only at hpd
        have hpd2 := Option.some.inj hpd
        constructor
        · rw [← hpd2]
        · rw [← hpd2,
            Pdf_smooth_eval p s o.msP wo (Reflect wo (p.sampleWh wo u)) hsh hge,
            Normalize_eq_of_smul s (wo + Reflect wo (p.sampleWh wo u))
              (p.sampleWh wo u) (dot wo (p.sampleWh wo u))
              (add_reflect_eq wo (p.sampleWh wo u)) hq hdot hs0 hs2]
      · rw [if_pos hsh] at hres
        rw [← Option.some.inj hres] at hpd
        simp at hpd

/-- Witness for C4: the discrete one-flake run and the continuous `n = 1000`
run, both with the densities realised concretely. -/
theorem sample_f_pdf_consistency_witness :
    (pW.flakenumber < 1000 ∧ Sample_f pW sW oW mUp (0, 0) = some c1res ∧
      c1res.wi = some mUp ∧ c1res.pdf = some (20000000 / 62831853) ∧
      (20000000 / 62831853 : ℚ) = Pdf pW sW oW.msP mUp mUp) ∧
    ((1000 : ℤ) ≤ pW1000.flakenumber ∧
      quadrance (pW1000.sampleWh mUp (0, 0)) = 1 ∧
      0 < dot mUp (pW1000.sampleWh mUp (0, 0)) ∧
      Sample_f pW1000 sW oW1000 mUp (0, 0) = some c4res ∧
      c4res.pdf = some (1 / 4) ∧
      ((1 / 4 : ℚ) = pW1000.distPdf mUp (pW1000.sampleWh mUp (0, 0)) /
          (4 * dot mUp (pW1000.sampleWh mUp (0, 0))) ∧
        (1 / 4 : ℚ) = Pdf pW1000 sW oW1000.msP mUp
          (Reflect mUp (pW1000.sampleWh mUp (0, 0))))) :=
  ⟨⟨by decide, sample_f_up_eval, rfl, rfl,
      sample_f_pdf_consistency.1 pW sW oW mUp (0, 0) c1res (by decide)
        sample_f_up_eval mUp (20000000 / 62831853) rfl rfl⟩,
    ⟨by decide, by norm_num [pW1000, quadrance, mUp],
      by norm_num [pW1000, dot, mUp], sample_f_smooth_run_eval, rfl,
      sample_f_pdf_consistency.2 pW1000 sW oW1000 mUp (0, 0) c4res (by decide)
        (by norm_num [pW1000, quadrance, mUp]) (by norm_num [pW1000, dot, mUp])
        (by rw [show pW1000.sampleWh mUp (0, 0) = mUp from rfl, reflect_up]
            norm_num [sW, quadrance, mUp, V3.add_def])
        (by rw [show pW1000.sampleWh mUp (0, 0) = mUp from rfl, reflect_up]
            norm_num [sW, quadrance, mUp, V3.add_def])
        sample_f_smooth_run_eval (1 / 4) rfl⟩⟩

/-- Witness for C5 at `wo = (1,0,0)` (zero z-component). -/
theorem f_degenerate_zero_witness :
    (AbsCosTheta mUp = 0 ∨ AbsCosTheta (V3.mk 1 0 0) = 0 ∨
      ((mUp + V3.mk 1 0 0).x = 0 ∧ (mUp + V3.mk 1 0 0).y = 0 ∧
        (mUp + V3.mk 1 0 0).z = 0) ∨
      pW.flakenumber = 0 ∨
      (fDK pW [mUp] (V3.mk 1 0 0) mUp).1 ≠ (fDK pW [mUp] (V3.mk 1 0 0) mUp).1 ∨
      (fDK pW [mUp] (V3.mk 1 0 0) mUp).1 = 0) ∧
    f pW sW [mUp] 1 (V3.mk 1 0 0) mUp = 0 :=
  ⟨by norm_num [AbsCosTheta],
    f_degenerate_zero pW sW [mUp] 1 (V3.mk 1 0 0) mUp (by norm_num [AbsCosTheta])⟩

end Glitter
